import Mathlib

/-!
Verification of the DecDecRec segment-timeline editor and recorder core.

The definitions below are a shallow embedding of the TypeScript source:

* `VideoEditor.*` embeds the `VideoEditor` component of `src/App.tsx`
  (segment data model, `split`, `moveSegment`, the inline delete handler,
  `totalDuration`, and the frame-drawing loop of `exportVid`).
* `VideoRecorder.*` embeds `src/services/recorder.ts`
  (`updateWebcamPos`, `drawCover`, `renderLoop`, and the resource handling
  of `start`/`stop`).
* `convertToMp4` and `extractMp3` embed `src/services/ffmpeg.ts`.

JavaScript numbers are modeled as exact rationals (`ℚ`); floating-point
rounding is outside the model.  Nondeterministic identifiers
(`Math.random().toString()`) are passed in as explicit fresh parameters, and
asynchronous playback/animation clocks are passed in as explicit traces of
observed sample times.
-/

/-- Embedding of a browser `Blob`: a byte list plus a MIME type string. -/
structure Blob where
  data : List ℕ
  mime : String
deriving DecidableEq

namespace VideoEditor

/-- Embedding of the `VideoSegment` interface of `src/App.tsx`: `start` and
`end` are offsets (seconds) into the source recording, `duration` is stored
separately (kept equal to `end - start` by the operations), and `color` is
the index into the `COLORS` presentation array.  The `end` field is named
`endTime` because `end` is a Lean keyword. -/
structure VideoSegment where
  id : ℕ
  start : ℚ
  endTime : ℚ
  duration : ℚ
  color : ℕ
deriving DecidableEq

/-- Embedding of `totalDuration = segments.reduce((a, b) => a + b.duration, 0)`
(`src/App.tsx` line 328). -/
def totalDuration (segs : List VideoSegment) : ℚ :=
  segs.foldl (fun a b => a + b.duration) 0

/-- Embedding of the `findIndex` scan inside `split` (`src/App.tsx` 380-385):
walks the segments accumulating `acc`, returning the first absolute index
`idx` together with its segment and accumulated virtual start `acc` such that
`currentTime >= acc && currentTime < acc + s.duration + 0.001`. -/
def locateAux (t : ℚ) : List VideoSegment → ℚ → ℕ → Option (ℕ × VideoSegment × ℚ)
  | [], _, _ => none
  | s :: rest, acc, idx =>
    if acc ≤ t ∧ t < acc + s.duration + 1/1000 then some (idx, s, acc)
    else locateAux t rest (acc + s.duration) (idx + 1)

/-- The locating scan of `split`, started with `acc = 0` and index `0`. -/
def locate (segs : List VideoSegment) (t : ℚ) : Option (ℕ × VideoSegment × ℚ) :=
  locateAux t segs 0 0

/-- Embedding of the body of `split` (`src/App.tsx` 379-402), fusing the
`findIndex` scan with the `splice` replacement.  `t` is `currentTime`; the
fresh ids `f1`, `f2` stand for the two `Math.random().toString()` calls.  The
guard `offsetInSeg < 0.2 || offsetInSeg > s.duration - 0.2` rejects the split
(timeline returned unchanged); otherwise the located segment is replaced by
the two pieces, the trailing piece taking color `COLORS[(activeIdx+1) % 5]`. -/
def splitAux (f1 f2 : ℕ) (t : ℚ) : List VideoSegment → ℚ → ℕ → List VideoSegment
  | [], _, _ => []
  | s :: rest, acc, idx =>
    if acc ≤ t ∧ t < acc + s.duration + 1/1000 then
      let offsetInSeg := t - acc
      if offsetInSeg < 1/5 ∨ offsetInSeg > s.duration - 1/5 then s :: rest
      else
        let sourceSplitPoint := s.start + offsetInSeg
        { s with id := f1, endTime := sourceSplitPoint, duration := offsetInSeg } ::
          ⟨f2, sourceSplitPoint, s.endTime, s.duration - offsetInSeg, (idx + 1) % 5⟩ :: rest
    else s :: splitAux f1 f2 t rest (acc + s.duration) (idx + 1)

/-- The `split` editor operation: scan from virtual time `0`, index `0`. -/
def split (f1 f2 : ℕ) (segs : List VideoSegment) (t : ℚ) : List VideoSegment :=
  splitAux f1 f2 t segs 0 0

/-- Embedding of `moveSegment(idx, dir)` (`src/App.tsx` 404-411): swaps the
segment at `idx` with the one at `idx + dir`; no-op when the target position
falls outside the list. -/
def moveSegment (segs : List VideoSegment) (idx : ℕ) (dir : ℤ) : List VideoSegment :=
  if (idx : ℤ) + dir < 0 ∨ (segs.length : ℤ) ≤ (idx : ℤ) + dir then segs
  else
    let target := ((idx : ℤ) + dir).toNat
    match segs.get? idx, segs.get? target with
    | some a, some b => (segs.set idx b).set target a
    | _, _ => segs

/-- Embedding of the delete button handler (`src/App.tsx` line 548):
`setSegments(segments.filter(seg => seg.id !== s.id))`.  Every segment whose
id matches is removed; there is no guard on the number of remaining
segments. -/
def deleteSegment (segs : List VideoSegment) (targetId : ℕ) : List VideoSegment :=
  segs.filter (fun seg => decide (seg.id ≠ targetId))

/-- An editor operation that the duration-invariance claim quantifies over:
a `split` (with its two fresh ids and the virtual split time) or a
`moveSegment`. -/
inductive EditOp where
  | splitOp (f1 f2 : ℕ) (t : ℚ)
  | moveOp (idx : ℕ) (dir : ℤ)

/-- Apply one editor operation. -/
def applyOp (segs : List VideoSegment) : EditOp → List VideoSegment
  | EditOp.splitOp f1 f2 t => split f1 f2 segs t
  | EditOp.moveOp idx dir => moveSegment segs idx dir

/-- Apply a sequence of editor operations left to right. -/
def applyOps (segs : List VideoSegment) (ops : List EditOp) : List VideoSegment :=
  ops.foldl applyOp segs

/-- Embedding of the `checkEnd` animation callback of `exportVid`
(`src/App.tsx` 470-483) for one segment: each animation tick observes the
playback position `v.currentTime` (one entry of `samples`); while the
observed position is below `s.end - 0.05` the frame is drawn at that source
time, and the first sample at or beyond `s.end - 0.05` (which is also how
`v.ended` is reached) stops the segment and advances to the next one. -/
def segDrawTimes (s : VideoSegment) (samples : List ℚ) : List ℚ :=
  samples.takeWhile (fun tm => decide (tm < s.endTime - 1/20))

/-- Embedding of the outer `renderLoop` of `exportVid` (`src/App.tsx`
457-487): segments are processed strictly in order, each with its own trace
of observed playback positions; the result is the ordered list of
`(segment index, source time)` draw events. -/
def exportRunAux : List VideoSegment → List (List ℚ) → ℕ → List (ℕ × ℚ)
  | [], _, _ => []
  | _ :: _, [], _ => []
  | s :: rest, tr :: trs, idx =>
    (segDrawTimes s tr).map (fun tm => (idx, tm)) ++ exportRunAux rest trs (idx + 1)

/-- The full export drawing run, starting at segment index `0`. -/
def exportRun (segs : List VideoSegment) (traces : List (List ℚ)) : List (ℕ × ℚ) :=
  exportRunAux segs traces 0

/-- Modelled from the spec (not from the code): the frame-count formula
`sum(floor(segment.duration × fps))` that the specification claims the export
renderer produces.  It is stated here only to be compared against
`exportRun`; the code of `exportVid` contains no such computation. -/
def specFrameCount (segs : List VideoSegment) (fps : ℕ) : ℕ :=
  (segs.map (fun s => (Int.floor (s.duration * fps)).toNat)).sum

end VideoEditor

namespace VideoRecorder

/-- Embedding of the public `webcamPos` field of `VideoRecorder`
(`src/services/recorder.ts` line 17): an overlay position in percent. -/
structure WebcamPos where
  x : ℚ
  y : ℚ
deriving DecidableEq

/-- Embedding of `updateWebcamPos` (`src/services/recorder.ts` 45-50):
`{ x: Math.max(0, Math.min(100, x)), y: Math.max(0, Math.min(100, y)) }`. -/
def updateWebcamPos (x y : ℚ) : WebcamPos :=
  ⟨max 0 (min 100 x), max 0 (min 100 y)⟩

/-- A rectangle, used for the source crop region and the destination box of
`drawCover`. -/
structure Rect where
  x : ℚ
  y : ℚ
  w : ℚ
  h : ℚ
deriving DecidableEq

/-- Embedding of `drawCover` (`src/services/recorder.ts` 152-172).  Inputs
are the source's intrinsic size (`videoWidth`, `videoHeight`), its
`readyState`, and the destination box `(x, y, w, h)`.  The guard
`img.videoWidth === 0 || img.readyState < 2` draws nothing (`none`);
otherwise the result is the pair (source crop rectangle `sx sy sWidth
sHeight`, destination rectangle) handed to `ctx.drawImage`. -/
def drawCover (videoWidth videoHeight : ℚ) (readyState : ℕ)
    (x y w h : ℚ) : Option (Rect × Rect) :=
  if videoWidth = 0 ∨ readyState < 2 then none
  else
    let imgAspect := videoWidth / videoHeight
    let targetAspect := w / h
    if targetAspect < imgAspect then
      let sHeight := videoHeight
      let sWidth := videoHeight * targetAspect
      some (⟨(videoWidth - sWidth) / 2, 0, sWidth, sHeight⟩, ⟨x, y, w, h⟩)
    else
      let sWidth := videoWidth
      let sHeight := videoWidth / targetAspect
      some (⟨0, (videoHeight - sHeight) / 2, sWidth, sHeight⟩, ⟨x, y, w, h⟩)

/-- The state read and written by one `renderLoop` tick
(`src/services/recorder.ts` 134-150). -/
structure LoopState where
  lastFrameTime : ℚ
  targetFps : ℚ
  animationFrameId : Option ℕ
deriving DecidableEq

/-- JavaScript `%` on the nonnegative rationals that reach it in
`renderLoop`: `a - b * floor(a / b)`. -/
def ratMod (a b : ℚ) : ℚ :=
  a - b * (Int.floor (a / b) : ℚ)

/-- The body of the `try` block of `renderLoop`: when a frame is due
(`elapsed >= interval`) it draws (`drawFrame` may throw, modeled by
`drawFails`) and then advances `lastFrameTime`; a throw aborts the block
before `lastFrameTime` is assigned. -/
def drawAttempt (drawFails : Bool) (st : LoopState) (now elapsed interval : ℚ) :
    Except Unit LoopState :=
  if interval ≤ elapsed then
    if drawFails then Except.error ()
    else Except.ok { st with lastFrameTime := now - ratMod elapsed interval }
  else Except.ok st

/-- Embedding of one `renderLoop` tick (`src/services/recorder.ts` 134-150):
the draw attempt is wrapped in `try`/`catch` (a caught error leaves the state
of the `try` block's entry), and `requestAnimationFrame(this.renderLoop)` is
executed after the `catch`, unconditionally; `nextId` is the id returned by
`requestAnimationFrame`. -/
def renderLoop (st : LoopState) (now : ℚ) (drawFails : Bool) (nextId : ℕ) : LoopState :=
  let elapsed := now - st.lastFrameTime
  let interval := 1000 / st.targetFps
  let st1 :=
    match drawAttempt drawFails st now elapsed interval with
    | Except.ok s => s
    | Except.error _ => st
  { st1 with animationFrameId := some nextId }

/-- Resource state of a `VideoRecorder`.  Each stream slot is `none` when the
stream was never acquired, `some true` while its tracks are live, and
`some false` once its tracks have been stopped.  `micStream` is the raw
microphone stream, which the source keeps only in a local variable of
`start` (`src/services/recorder.ts` 99-101); `audioStream` is the mixer
destination stream stored on the instance. -/
structure RecState where
  chunks : List (List ℕ)
  screenStream : Option Bool
  webcamStream : Option Bool
  audioStream : Option Bool
  micStream : Option Bool
  mediaRecorder : Option Bool
  animationFrameId : Option ℕ
deriving DecidableEq

/-- The state of a freshly constructed `VideoRecorder`. -/
def initRecState : RecState :=
  ⟨[], none, none, none, none, none, none⟩

/-- Stopping the tracks of a stream slot: acquired streams become stopped,
never-acquired slots stay untouched (the optional-chaining `?.` in the
source). -/
def stopTracks : Option Bool → Option Bool
  | none => none
  | some _ => some false

/-- Embedding of `stop()` (`src/services/recorder.ts` 219-232): stops the
media recorder if present, cancels the animation frame, stops the tracks of
the three stream fields (`screenStream`, `webcamStream`, `audioStream` — the
local `micStream` is not a field and is not touched), then returns
`chunks.length > 0 ? new Blob(chunks, {type: video/webm}) : null` and clears
`chunks`. -/
def stop (st : RecState) : RecState × Option Blob :=
  ({ st with
      mediaRecorder := stopTracks st.mediaRecorder,
      animationFrameId := none,
      screenStream := stopTracks st.screenStream,
      webcamStream := stopTracks st.webcamStream,
      audioStream := stopTracks st.audioStream,
      chunks := [] },
   if 0 < st.chunks.length then some ⟨st.chunks.flatten, "video/webm"⟩ else none)

/-- The points at which a step of `start()` can throw: the three
capture-source acquisitions (`getDisplayMedia`, webcam `getUserMedia`, mic
`getUserMedia`), the `MediaRecorder` construction, or no failure at all. -/
inductive FailPoint where
  | screenFail
  | webcamFail
  | micFail
  | recorderFail
  | noFail
deriving DecidableEq

/-- Embedding of the acquisition sequence of `start()`
(`src/services/recorder.ts` 52-132) on a fresh recorder.  Steps run in
source order (screen capture, optional webcam, microphone, mixer
destination, media recorder + render loop); a failure at the designated
point triggers the `catch` block, which calls `this.stop()` and rethrows.
The returned flag is `true` when the error propagates to the caller. -/
def startAttempt (useWebcam : Bool) (fp : FailPoint) : RecState × Bool :=
  let st0 := initRecState
  if fp = FailPoint.screenFail then ((stop st0).1, true)
  else
    let st1 := { st0 with screenStream := some true }
    if useWebcam ∧ fp = FailPoint.webcamFail then ((stop st1).1, true)
    else
      let st2 := if useWebcam then { st1 with webcamStream := some true } else st1
      if fp = FailPoint.micFail then ((stop st2).1, true)
      else
        let st3 := { st2 with micStream := some true, audioStream := some true }
        if fp = FailPoint.recorderFail then ((stop st3).1, true)
        else ({ st3 with mediaRecorder := some true, animationFrameId := some 1 }, false)

end VideoRecorder

/-- Embedding of `convertToMp4` (`src/services/ffmpeg.ts` 6-19): the
placeholder returns its input blob unchanged (no transcoding occurs). -/
def convertToMp4 (input : Blob) : Blob :=
  input

/-- Embedding of `extractMp3` (`src/services/ffmpeg.ts` 21-25): the
placeholder returns `new Blob([], { type: audio/mp3 })` regardless of
input. -/
def extractMp3 (_ : Blob) : Blob :=
  ⟨[], "audio/mp3"⟩

open VideoEditor VideoRecorder

/-! ### Helper lemmas about `totalDuration` and the editor operations -/

/-- The `reduce` in `totalDuration` computes the initial accumulator plus the
sum of the `duration` fields. -/
lemma foldl_add_duration (l : List VideoSegment) (c : ℚ) :
    l.foldl (fun a b => a + b.duration) c = c + (l.map VideoSegment.duration).sum := by
  induction l generalizing c with
  | nil => simp
  | cons s rest ih =>
    rw [List.foldl_cons, ih, List.map_cons, List.sum_cons]
    ring

/-- `totalDuration` is the sum of the segments' `duration` fields. -/
lemma totalDuration_eq_sum (l : List VideoSegment) :
    totalDuration l = (l.map VideoSegment.duration).sum := by
  simpa using foldl_add_duration l 0

lemma totalDuration_nil : totalDuration [] = 0 := rfl

lemma totalDuration_cons (s : VideoSegment) (l : List VideoSegment) :
    totalDuration (s :: l) = s.duration + totalDuration l := by
  simp [totalDuration_eq_sum]

/-- Splitting preserves the total duration, whatever the scan position. -/
lemma totalDuration_splitAux (f1 f2 : ℕ) (t : ℚ) :
    ∀ (l : List VideoSegment) (acc : ℚ) (idx : ℕ),
      totalDuration (splitAux f1 f2 t l acc idx) = totalDuration l := by
  intro l
  induction l with
  | nil => intro acc idx; rfl
  | cons s rest ih =>
    intro acc idx
    simp only [splitAux]
    split_ifs with h1 h2
    · rfl
    · rw [totalDuration_cons, totalDuration_cons, totalDuration_cons]
      ring
    · rw [totalDuration_cons, totalDuration_cons, ih]

/-- The `split` editor operation preserves the total virtual duration. -/
lemma totalDuration_split (f1 f2 : ℕ) (segs : List VideoSegment) (t : ℚ) :
    totalDuration (split f1 f2 segs t) = totalDuration segs :=
  totalDuration_splitAux f1 f2 t segs 0 0

/-- Effect of `List.set` on the sum of durations. -/
lemma durSum_set :
    ∀ (l : List VideoSegment) (i : ℕ) (x b : VideoSegment),
      l.get? i = some b →
      ((l.set i x).map VideoSegment.duration).sum
        = (l.map VideoSegment.duration).sum + x.duration - b.duration := by
  intro l
  induction l with
  | nil => intro i x b h; simp at h
  | cons s rest ih =>
    intro i x b h
    cases i with
    | zero =>
      simp only [List.get?_cons_zero, Option.some.injEq] at h
      subst h
      simp only [List.set_cons_zero, List.map_cons, List.sum_cons]
      ring
    | succ n =>
      simp only [List.get?_cons_succ] at h
      simp only [List.set_cons_succ, List.map_cons, List.sum_cons, ih n x b h]
      ring

/-- The element read back at `j` after `set i x`, when `j` held `b`. -/
lemma get?_set_me :
    ∀ (l : List VideoSegment) (i j : ℕ) (x b : VideoSegment),
      l.get? j = some b → (l.set i x).get? j = some (if i = j then x else b) := by
  intro l
  induction l with
  | nil => intro i j x b h; simp at h
  | cons s rest ih =>
    intro i j x b h
    cases i with
    | zero =>
      cases j with
      | zero => simp
      | succ m => simpa using h
    | succ n =>
      cases j with
      | zero =>
        simp only [List.get?_cons_zero, Option.some.injEq] at h
        subst h
        simp
      | succ m =>
        simp only [List.get?_cons_succ] at h
        simp only [List.set_cons_succ, List.get?_cons_succ, ih n m x b h,
          Nat.succ_inj]

/-- `moveSegment` preserves the total virtual duration. -/
lemma totalDuration_moveSegment (segs : List VideoSegment) (idx : ℕ) (dir : ℤ) :
    totalDuration (moveSegment segs idx dir) = totalDuration segs := by
  simp only [moveSegment]
  split_ifs with hguard
  · rfl
  · cases ha : segs.get? idx with
    | none => simp
    | some a =>
      cases hb : segs.get? (((idx : ℤ) + dir).toNat) with
      | none => simp
      | some b =>
        simp only
        rw [totalDuration_eq_sum, totalDuration_eq_sum]
        have hb2 : (segs.set idx b).get? (((idx : ℤ) + dir).toNat) = some b := by
          rw [get?_set_me segs idx (((idx : ℤ) + dir).toNat) b b hb]
          simp
        rw [durSum_set (segs.set idx b) (((idx : ℤ) + dir).toNat) a b hb2,
          durSum_set segs idx b a ha]
        ring

/-- Each single editor operation preserves the total virtual duration. -/
lemma totalDuration_applyOp (segs : List VideoSegment) (op : EditOp) :
    totalDuration (applyOp segs op) = totalDuration segs := by
  cases op with
  | splitOp f1 f2 t => exact totalDuration_split f1 f2 segs t
  | moveOp idx dir => exact totalDuration_moveSegment segs idx dir

/-- Any sequence of split/move operations preserves the total duration. -/
lemma totalDuration_applyOps (ops : List EditOp) :
    ∀ segs : List VideoSegment, totalDuration (applyOps segs ops) = totalDuration segs := by
  induction ops with
  | nil => intro segs; rfl
  | cons op rest ih =>
    intro segs
    show totalDuration (applyOps (applyOp segs op) rest) = totalDuration segs
    rw [ih (applyOp segs op), totalDuration_applyOp]

/-- Removing the matching segments removes exactly their total duration. -/
lemma totalDuration_filter_not (l : List VideoSegment) (tid : ℕ) :
    totalDuration (l.filter (fun q => decide (q.id ≠ tid)))
      = totalDuration l - totalDuration (l.filter (fun q => decide (q.id = tid))) := by
  simp only [ne_eq, decide_not]
  induction l with
  | nil => simp [totalDuration_nil]
  | cons s rest ih =>
    by_cases h : s.id = tid
    · simp [List.filter_cons, h, totalDuration_cons, ih]
    · simp [List.filter_cons, h, totalDuration_cons, ih]
      ring

/-- With a unique id, filtering for that id returns the one segment. -/
lemma filter_id_eq_single (l : List VideoSegment) (s : VideoSegment)
    (hmem : s ∈ l) (hcount : l.countP (fun q => decide (q.id = s.id)) = 1) :
    l.filter (fun q => decide (q.id = s.id)) = [s] := by
  have hlen : (l.filter (fun q => decide (q.id = s.id))).length = 1 := by
    rw [← List.countP_eq_length_filter]
    exact hcount
  obtain ⟨a, ha⟩ := List.length_eq_one.mp hlen
  have hs : s ∈ l.filter (fun q => decide (q.id = s.id)) :=
    List.mem_filter.mpr ⟨hmem, by simp⟩
  rw [ha] at hs
  simp only [List.mem_singleton] at hs
  rw [ha, hs]

/-- Deleting a uniquely identified segment removes exactly its duration. -/
lemma totalDuration_deleteSegment (segs : List VideoSegment) (s : VideoSegment)
    (hmem : s ∈ segs) (hcount : segs.countP (fun q => decide (q.id = s.id)) = 1) :
    totalDuration (deleteSegment segs s.id) = totalDuration segs - s.duration := by
  unfold deleteSegment
  rw [totalDuration_filter_not, filter_id_eq_single segs s hmem hcount,
    totalDuration_cons, totalDuration_nil]
  ring

/-! ### Claim C1 -/

/-- C1: any sequence of `split` and `moveSegment` operations leaves the total
virtual duration of the timeline unchanged, and deleting a (uniquely
identified, positive-duration) segment `s` decreases the total by exactly
`s.duration`, hence strictly. -/
theorem c1_total_duration (segs : List VideoSegment) (ops : List EditOp)
    (s : VideoSegment) (hmem : s ∈ segs)
    (hcount : segs.countP (fun q => decide (q.id = s.id)) = 1)
    (hpos : 0 < s.duration) :
    totalDuration (applyOps segs ops) = totalDuration segs ∧
    totalDuration (deleteSegment segs s.id) = totalDuration segs - s.duration ∧
    totalDuration (deleteSegment segs s.id) < totalDuration segs := by
  refine ⟨totalDuration_applyOps ops segs,
    totalDuration_deleteSegment segs s hmem hcount, ?_⟩
  rw [totalDuration_deleteSegment segs s hmem hcount]
  linarith

/-- Witness for C1 at the spec's scenario-2 timeline: a 10-second recording
split at 4 s, then the first segment moved and finally deleted. -/
theorem c1_total_duration_witness :
    totalDuration (applyOps [⟨1, 0, 4, 4, 0⟩, ⟨2, 4, 10, 6, 1⟩]
        [EditOp.splitOp 7 8 2, EditOp.moveOp 0 1])
      = totalDuration [⟨1, 0, 4, 4, 0⟩, ⟨2, 4, 10, 6, 1⟩] ∧
    totalDuration (deleteSegment [⟨1, 0, 4, 4, 0⟩, ⟨2, 4, 10, 6, 1⟩] 1)
      = totalDuration [⟨1, 0, 4, 4, 0⟩, ⟨2, 4, 10, 6, 1⟩]
          - (⟨1, 0, 4, 4, 0⟩ : VideoSegment).duration ∧
    totalDuration (deleteSegment [⟨1, 0, 4, 4, 0⟩, ⟨2, 4, 10, 6, 1⟩] 1)
      < totalDuration [⟨1, 0, 4, 4, 0⟩, ⟨2, 4, 10, 6, 1⟩] :=
  c1_total_duration [⟨1, 0, 4, 4, 0⟩, ⟨2, 4, 10, 6, 1⟩]
    [EditOp.splitOp 7 8 2, EditOp.moveOp 0 1] ⟨1, 0, 4, 4, 0⟩
    (by simp) (by simp [List.countP, List.countP.go]) (by norm_num)

/-! ### Correspondence between the locating scan and `splitAux` -/

/-- When the scan finds no containing segment, `split` leaves the timeline
unchanged. -/
lemma splitAux_locate_none (f1 f2 : ℕ) (t : ℚ) :
    ∀ (l : List VideoSegment) (acc : ℚ) (idx : ℕ),
      locateAux t l acc idx = none → splitAux f1 f2 t l acc idx = l := by
  intro l
  induction l with
  | nil => intro acc idx _; rfl
  | cons s rest ih =>
    intro acc idx h
    simp only [locateAux] at h
    by_cases h1 : acc ≤ t ∧ t < acc + s.duration + 1/1000
    · rw [if_pos h1] at h
      exact absurd h (by simp)
    · rw [if_neg h1] at h
      simp only [splitAux]
      rw [if_neg h1, ih _ _ h]

/-- When the split offset violates the 0.2 s guard, `split` leaves the
timeline unchanged. -/
lemma splitAux_locate_reject (f1 f2 : ℕ) (t : ℚ) :
    ∀ (l : List VideoSegment) (acc : ℚ) (idx i : ℕ) (s : VideoSegment) (a : ℚ),
      locateAux t l acc idx = some (i, s, a) →
      t - a < 1/5 ∨ s.duration - 1/5 < t - a →
      splitAux f1 f2 t l acc idx = l := by
  intro l
  induction l with
  | nil => intro acc idx i s a h _; simp [locateAux] at h
  | cons s0 rest ih =>
    intro acc idx i s a h hg
    simp only [locateAux] at h
    by_cases h1 : acc ≤ t ∧ t < acc + s0.duration + 1/1000
    · rw [if_pos h1] at h
      simp only [Option.some.injEq, Prod.mk.injEq] at h
      obtain ⟨-, h2, h3⟩ := h
      subst h2; subst h3
      simp only [splitAux]
      rw [if_pos h1, if_pos]
      exact hg
    · rw [if_neg h1] at h
      simp only [splitAux]
      rw [if_neg h1, ih _ _ i s a h hg]

/-- When the split offset satisfies the guard, `splitAux` replaces the
located segment with the two pieces, in place. -/
lemma splitAux_locate_success (f1 f2 : ℕ) (t : ℚ) :
    ∀ (l : List VideoSegment) (acc : ℚ) (idx i : ℕ) (s : VideoSegment) (a : ℚ),
      locateAux t l acc idx = some (i, s, a) →
      1/5 ≤ t - a → t - a ≤ s.duration - 1/5 →
      idx ≤ i ∧ l.get? (i - idx) = some s ∧
      splitAux f1 f2 t l acc idx =
        l.take (i - idx) ++
          { s with id := f1, endTime := s.start + (t - a), duration := t - a } ::
          (⟨f2, s.start + (t - a), s.endTime, s.duration - (t - a), (i + 1) % 5⟩ :
              VideoSegment) ::
          l.drop (i - idx + 1) := by
  intro l
  induction l with
  | nil => intro acc idx i s a h _ _; simp [locateAux] at h
  | cons s0 rest ih =>
    intro acc idx i s a h hg1 hg2
    simp only [locateAux] at h
    by_cases h1 : acc ≤ t ∧ t < acc + s0.duration + 1/1000
    · rw [if_pos h1] at h
      simp only [Option.some.injEq, Prod.mk.injEq] at h
      obtain ⟨hidx, h2, h3⟩ := h
      subst hidx; subst h2; subst h3
      refine ⟨le_refl _, by simp, ?_⟩
      simp only [splitAux]
      rw [if_pos h1, if_neg (by push_neg; exact ⟨hg1, hg2⟩)]
      simp
    · rw [if_neg h1] at h
      obtain ⟨hle, hget, heq⟩ := ih (acc + s0.duration) (idx + 1) i s a h hg1 hg2
      obtain ⟨n, hn⟩ : ∃ n, i - idx = n + 1 := ⟨i - (idx + 1), by omega⟩
      have hn2 : i - (idx + 1) = n := by omega
      refine ⟨by omega, ?_, ?_⟩
      · rw [hn, List.get?_cons_succ, ← hn2]
        exact hget
      · simp only [splitAux]
        rw [if_neg h1, heq, hn2, hn, List.take_succ_cons, List.drop_succ_cons]
        simp

/-! ### Claim C2 -/

/-- C2 counterexample: on a single 1-second segment, splitting at virtual
time exactly 0.2 s is not rejected (the guard is strict) and the leading
piece has duration exactly 0.2 s, i.e. `≤` the 0.2 s guard threshold —
contradicting the claim that a segment with duration `≤` the threshold is
never produced. -/
theorem c2_split_guard_counterexample :
    split 7 8 [⟨1, 0, 1, 1, 0⟩] (1/5) =
      [⟨7, 0, 1/5, 1/5, 0⟩, ⟨8, 1/5, 1, 4/5, 1⟩] ∧
    (⟨7, 0, 1/5, 1/5, 0⟩ : VideoSegment).duration ≤ 1/5 ∧
    split 7 8 [⟨1, 0, 1, 1, 0⟩] (1/5) ≠ [⟨1, 0, 1, 1, 0⟩] := by
  refine ⟨?_, by norm_num, ?_⟩ <;> norm_num [split, splitAux]

/-- C2 (amended): given the scan locates the segment `s` containing virtual
time `t` (with accumulated start `a`), the split is rejected — timeline
unchanged — exactly when the offset is strictly within 0.2 s of either edge;
otherwise the located segment is replaced in place by two pieces whose
durations sum exactly to `s.duration` and are each at least 0.2 s (a piece of
duration exactly 0.2 s can be produced, so durations strictly below the
threshold — not `≤` it — are what is never produced). -/
theorem c2_split_guard (f1 f2 i : ℕ) (segs : List VideoSegment) (t a : ℚ)
    (s : VideoSegment) (hloc : locate segs t = some (i, s, a)) :
    (t - a < 1/5 ∨ s.duration - 1/5 < t - a → split f1 f2 segs t = segs) ∧
    (1/5 ≤ t - a → t - a ≤ s.duration - 1/5 →
      segs.get? i = some s ∧
      split f1 f2 segs t =
        segs.take i ++
          { s with id := f1, endTime := s.start + (t - a), duration := t - a } ::
          (⟨f2, s.start + (t - a), s.endTime, s.duration - (t - a), (i + 1) % 5⟩ :
              VideoSegment) ::
          segs.drop (i + 1) ∧
      (t - a) + (s.duration - (t - a)) = s.duration ∧
      1/5 ≤ t - a ∧ 1/5 ≤ s.duration - (t - a)) := by
  constructor
  · intro hg
    exact splitAux_locate_reject f1 f2 t segs 0 0 i s a hloc hg
  · intro hg1 hg2
    obtain ⟨-, hget, heq⟩ := splitAux_locate_success f1 f2 t segs 0 0 i s a hloc hg1 hg2
    rw [Nat.sub_zero] at hget heq
    exact ⟨hget, heq, by ring, hg1, by linarith⟩

/-- Witness for C2 at the spec's scenario 2: a full-range 10-second segment
split at virtual time 4 s yields segments of durations 4 and 6. -/
theorem c2_split_guard_witness :
    split 7 8 [⟨1, 0, 10, 10, 0⟩] 4 = [⟨7, 0, 4, 4, 0⟩, ⟨8, 4, 10, 6, 1⟩] ∧
    (4 : ℚ) - 0 + (10 - (4 - 0)) = 10 := by
  have h := c2_split_guard 7 8 0 [⟨1, 0, 10, 10, 0⟩] 4 0 ⟨1, 0, 10, 10, 0⟩
    (by norm_num [locate, locateAux])
  obtain ⟨-, heq, -, -, -⟩ := h.2 (by norm_num) (by norm_num)
  refine ⟨?_, by norm_num⟩
  rw [heq]
  norm_num

/-! ### Claim C3 -/

/-- C3 counterexample: deleting the sole remaining segment of a timeline is
not rejected — the delete handler filters unconditionally, so the timeline
becomes empty instead of being left unchanged. -/
theorem c3_delete_sole_counterexample :
    deleteSegment [⟨1, 0, 10, 10, 0⟩] 1 = ([] : List VideoSegment) ∧
    deleteSegment [⟨1, 0, 10, 10, 0⟩] 1 ≠ [⟨1, 0, 10, 10, 0⟩] := by
  constructor
  · simp [deleteSegment, List.filter_cons]
  · simp [deleteSegment, List.filter_cons]

/-- C3 (amended): `deleteSegment` removes every segment carrying the given
id unconditionally; in particular, deleting the sole remaining segment
empties the timeline rather than leaving it unchanged. -/
theorem c3_delete_sole_amended (s : VideoSegment) :
    deleteSegment [s] s.id = [] := by
  simp [deleteSegment, List.filter_cons]

/-! ### Helper lemmas about the export drawing run -/

/-- Every sample kept by `segDrawTimes` is strictly below the segment's end
minus the 0.05 s stopping guard. -/
lemma mem_segDrawTimes {s : VideoSegment} {samples : List ℚ} {tm : ℚ}
    (h : tm ∈ segDrawTimes s samples) : tm < s.endTime - 1/20 := by
  have := List.mem_takeWhile_imp h
  simpa using this

/-- Every draw event of `exportRunAux` carries a segment index at or beyond
the starting index, and its source time is below that segment's stopping
guard. -/
lemma exportRunAux_mem :
    ∀ (l : List VideoSegment) (trs : List (List ℚ)) (idx i : ℕ) (tm : ℚ),
      (i, tm) ∈ exportRunAux l trs idx →
      idx ≤ i ∧ ∀ s, l.get? (i - idx) = some s → tm < s.endTime - 1/20 := by
  intro l
  induction l with
  | nil => intro trs idx i tm h; simp [exportRunAux] at h
  | cons s0 rest ih =>
    intro trs idx i tm h
    cases trs with
    | nil => simp [exportRunAux] at h
    | cons tr trs2 =>
      simp only [exportRunAux, List.mem_append, List.mem_map] at h
      rcases h with ⟨tm2, htm2, heq⟩ | h2
      · obtain ⟨rfl, rfl⟩ : idx = i ∧ tm2 = tm := by
          exact ⟨congrArg Prod.fst heq, congrArg Prod.snd heq⟩
        refine ⟨le_refl _, ?_⟩
        intro s hs
        rw [Nat.sub_self, List.get?_cons_zero, Option.some.injEq] at hs
        subst hs
        exact mem_segDrawTimes htm2
      · obtain ⟨hle, hrest⟩ := ih trs2 (idx + 1) i tm h2
        refine ⟨by omega, ?_⟩
        intro s hs
        have hn : i - idx = (i - (idx + 1)) + 1 := by omega
        rw [hn, List.get?_cons_succ] at hs
        exact hrest s hs

/-- The index of every draw event is at least the starting index. -/
lemma exportRunAux_fst_le (l : List VideoSegment) (trs : List (List ℚ)) (idx : ℕ)
    (e : ℕ × ℚ) (he : e ∈ exportRunAux l trs idx) : idx ≤ e.1 :=
  (exportRunAux_mem l trs idx e.1 e.2 (by simpa using he)).1

/-- A constant-valued map is pairwise non-decreasing. -/
lemma pairwise_le_map_const (l : List ℚ) (n : ℕ) :
    List.Pairwise (· ≤ ·) (l.map fun _ => n) := by
  induction l with
  | nil => simp
  | cons a rest ih =>
    simp only [List.map_cons, List.pairwise_cons]
    exact ⟨fun b hb => by
      simp only [List.mem_map] at hb
      obtain ⟨-, -, rfl⟩ := hb
      exact le_refl n, ih⟩

/-- The segment indices of the draw events are non-decreasing: segments are
visited strictly in timeline order. -/
lemma exportRunAux_sorted :
    ∀ (l : List VideoSegment) (trs : List (List ℚ)) (idx : ℕ),
      List.Sorted (· ≤ ·) ((exportRunAux l trs idx).map Prod.fst) := by
  intro l
  induction l with
  | nil => intro trs idx; simp [exportRunAux]
  | cons s0 rest ih =>
    intro trs idx
    cases trs with
    | nil => simp [exportRunAux]
    | cons tr trs2 =>
      simp only [exportRunAux, List.map_append, List.map_map]
      rw [List.Sorted, List.pairwise_append]
      refine ⟨?_, ih trs2 (idx + 1), ?_⟩
      · exact pairwise_le_map_const (segDrawTimes s0 tr) idx
      · intro a ha b hb
        simp only [List.mem_map, Function.comp] at ha
        obtain ⟨-, -, rfl⟩ := ha
        simp only [List.mem_map] at hb
        obtain ⟨e, he, rfl⟩ := hb
        have := exportRunAux_fst_le rest trs2 (idx + 1) e he
        omega

/-! ### Claim C4 -/

/-- C4 counterexample: for the single 1-second segment at 30 fps the claim
demands exactly `floor(1 × 30) = 30` frames; but the export loop is a
real-time playback capture — with the (legal) playback/animation-tick trace
that observes position 0 and then 0.96 s, exactly one frame is drawn. -/
theorem c4_frame_count_counterexample :
    (exportRun [⟨1, 0, 1, 1, 0⟩] [[0, 24/25]]).length = 1 ∧
    specFrameCount [⟨1, 0, 1, 1, 0⟩] 30 = 30 ∧ (1 : ℕ) ≠ 30 := by
  refine ⟨?_, ?_, by decide⟩
  · norm_num [exportRun, exportRunAux, segDrawTimes, List.takeWhile]
  · norm_num [specFrameCount]
    rfl

/-- C4 (amended): the export renderer visits segments in timeline order (the
sequence of drawn segment indices is non-decreasing), and every frame drawn
for a segment is drawn at a playback-reported source time strictly below
that segment's end minus the 0.05 s stopping guard; the number of frames is
determined by the playback/animation-tick trace, not by
`sum(floor(duration × fps))`. -/
theorem c4_export_order (segs : List VideoSegment) (traces : List (List ℚ))
    (i : ℕ) (tm : ℚ) (s : VideoSegment)
    (he : (i, tm) ∈ exportRun segs traces) (hs : segs.get? i = some s) :
    List.Sorted (· ≤ ·) ((exportRun segs traces).map Prod.fst) ∧
    tm < s.endTime - 1/20 := by
  refine ⟨exportRunAux_sorted segs traces 0, ?_⟩
  have h := exportRunAux_mem segs traces 0 i tm he
  exact h.2 s (by simpa using hs)

/-- Witness for C4 at a one-segment timeline whose trace observes playback
position 0.5 s: the single draw event is in order and strictly below the
segment's guarded end. -/
theorem c4_export_order_witness :
    List.Sorted (· ≤ ·) ((exportRun [⟨1, 0, 1, 1, 0⟩] [[1/2]]).map Prod.fst) ∧
    (1 : ℚ)/2 < (⟨1, 0, 1, 1, 0⟩ : VideoSegment).endTime - 1/20 :=
  c4_export_order [⟨1, 0, 1, 1, 0⟩] [[1/2]] 0 (1/2) ⟨1, 0, 1, 1, 0⟩
    (by norm_num [exportRun, exportRunAux, segDrawTimes, List.takeWhile])
    rfl

/-! ### Claim C5 -/

/-- C5: whenever `drawCover` draws (source with positive intrinsic
dimensions into a destination box with positive dimensions), the computed
source crop rectangle lies entirely within the source bounds, is
non-degenerate, and the destination rectangle is exactly the requested box,
so no destination pixels are left undrawn. -/
theorem c5_draw_cover_bounds (videoWidth videoHeight x y w h : ℚ)
    (readyState : ℕ) (srcR dstR : Rect)
    (hvw : 0 < videoWidth) (hvh : 0 < videoHeight) (hw : 0 < w) (hh : 0 < h)
    (heq : drawCover videoWidth videoHeight readyState x y w h = some (srcR, dstR)) :
    0 ≤ srcR.x ∧ 0 ≤ srcR.y ∧ srcR.x + srcR.w ≤ videoWidth ∧
    srcR.y + srcR.h ≤ videoHeight ∧ 0 < srcR.w ∧ 0 < srcR.h ∧
    dstR = ⟨x, y, w, h⟩ := by
  have hta : 0 < w / h := div_pos hw hh
  simp only [drawCover] at heq
  by_cases h0 : videoWidth = 0 ∨ readyState < 2
  · rw [if_pos h0] at heq
    exact absurd heq (by simp)
  · rw [if_neg h0] at heq
    by_cases hc : w / h < videoWidth / videoHeight
    · rw [if_pos hc] at heq
      simp only [Option.some.injEq, Prod.mk.injEq] at heq
      obtain ⟨rfl, rfl⟩ := heq
      have hkey : videoHeight * (w / h) < videoWidth := by
        have h2 := (div_lt_div_iff₀ hh hvh).mp hc
        calc videoHeight * (w / h) = videoHeight * w / h := by ring
        _ < videoWidth := by
            rw [div_lt_iff₀ hh]
            nlinarith
      refine ⟨by simp only; linarith, by simp only; linarith, by simp only; linarith,
        by simp only; linarith, ?_, by simp only; linarith, rfl⟩
      · simp only
        positivity
    · rw [if_neg hc] at heq
      simp only [Option.some.injEq, Prod.mk.injEq] at heq
      obtain ⟨rfl, rfl⟩ := heq
      push_neg at hc
      have hkey : videoWidth / (w / h) ≤ videoHeight := by
        rw [div_le_iff₀ hta]
        have h2 := (div_le_div_iff₀ hvh hh).mp hc
        calc videoWidth ≤ videoHeight * w / h := by
              rw [le_div_iff₀ hh]
              nlinarith
        _ = videoHeight * (w / h) := by ring
      refine ⟨by simp only; linarith, by simp only; linarith, by simp only; linarith,
        by simp only; linarith, by simp only; linarith, ?_, rfl⟩
      · simp only
        positivity

/-- Witness for C5: a 1920×1080 source drawn into the 240×240 webcam circle
box crops the centered 1080×1080 square — inside the source — and fills the
destination box exactly. -/
theorem c5_draw_cover_bounds_witness :
    0 ≤ (⟨420, 0, 1080, 1080⟩ : Rect).x ∧ 0 ≤ (⟨420, 0, 1080, 1080⟩ : Rect).y ∧
    (⟨420, 0, 1080, 1080⟩ : Rect).x + (⟨420, 0, 1080, 1080⟩ : Rect).w ≤ 1920 ∧
    (⟨420, 0, 1080, 1080⟩ : Rect).y + (⟨420, 0, 1080, 1080⟩ : Rect).h ≤ 1080 ∧
    0 < (⟨420, 0, 1080, 1080⟩ : Rect).w ∧ 0 < (⟨420, 0, 1080, 1080⟩ : Rect).h ∧
    (⟨0, 0, 240, 240⟩ : Rect) = ⟨0, 0, 240, 240⟩ :=
  c5_draw_cover_bounds 1920 1080 0 0 240 240 2 ⟨420, 0, 1080, 1080⟩ ⟨0, 0, 240, 240⟩
    (by norm_num) (by norm_num) (by norm_num) (by norm_num)
    (by norm_num [drawCover])

/-! ### Claim C6 -/

/-- C6 counterexample: when no chunks were produced, `stop()` returns
`null` (`none`), not an empty buffer as the claim states. -/
theorem c6_stop_empty_counterexample :
    (VideoRecorder.stop initRecState).2 = none ∧
    (VideoRecorder.stop initRecState).2 ≠ some ⟨[], "video/webm"⟩ := by
  constructor
  · rfl
  · simp [VideoRecorder.stop, initRecState]

/-- C6 (amended): `stop()` returns the buffer assembled by concatenating all
emitted chunks in order when at least one chunk was produced, and returns
`null` — not an empty buffer — when none were produced (as on a fresh
recorder). -/
theorem c6_stop_assembles (st : RecState) (hne : st.chunks ≠ []) :
    (VideoRecorder.stop st).2 = some ⟨st.chunks.flatten, "video/webm"⟩ ∧
    (VideoRecorder.stop initRecState).2 = none := by
  refine ⟨?_, rfl⟩
  simp only [VideoRecorder.stop]
  rw [if_pos (List.length_pos.mpr hne)]

/-- Witness for C6 on a recorder holding the chunks `[1,2]` and `[3]`. -/
theorem c6_stop_assembles_witness :
    (VideoRecorder.stop
        ⟨[[1, 2], [3]], some true, some true, some true, some true, some true, some 1⟩).2
      = some ⟨[1, 2, 3], "video/webm"⟩ ∧
    (VideoRecorder.stop initRecState).2 = none :=
  c6_stop_assembles
    ⟨[[1, 2], [3]], some true, some true, some true, some true, some true, some 1⟩
    (by simp)

/-! ### Claim C7 -/

/-- C7: when any capture-source acquisition step of `start()` fails (screen
capture, webcam capture when requested, or microphone capture), the `catch`
block's `stop()` call leaves no capture source live, no recording in
progress and no render loop scheduled, and the error propagates to the
caller. -/
theorem c7_acquisition_failure_cleanup (useWebcam : Bool) (fp : FailPoint)
    (hacq : fp = FailPoint.screenFail ∨
      (fp = FailPoint.webcamFail ∧ useWebcam = true) ∨ fp = FailPoint.micFail) :
    (startAttempt useWebcam fp).2 = true ∧
    (startAttempt useWebcam fp).1.screenStream ≠ some true ∧
    (startAttempt useWebcam fp).1.webcamStream ≠ some true ∧
    (startAttempt useWebcam fp).1.micStream ≠ some true ∧
    (startAttempt useWebcam fp).1.mediaRecorder ≠ some true ∧
    (startAttempt useWebcam fp).1.animationFrameId = none := by
  rcases hacq with rfl | ⟨rfl, rfl⟩ | rfl
  · cases useWebcam <;> decide
  · decide
  · cases useWebcam <;> decide

/-- Witness for C7 at a denied screen capture with the webcam requested. -/
theorem c7_acquisition_failure_cleanup_witness :
    (startAttempt true FailPoint.screenFail).2 = true ∧
    (startAttempt true FailPoint.screenFail).1.screenStream ≠ some true ∧
    (startAttempt true FailPoint.screenFail).1.webcamStream ≠ some true ∧
    (startAttempt true FailPoint.screenFail).1.micStream ≠ some true ∧
    (startAttempt true FailPoint.screenFail).1.mediaRecorder ≠ some true ∧
    (startAttempt true FailPoint.screenFail).1.animationFrameId = none :=
  c7_acquisition_failure_cleanup true FailPoint.screenFail (Or.inl rfl)

/-! ### Claim C8 -/

/-- C8: `updateWebcamPos` stores exactly the clamped coordinates
`(max 0 (min 100 x), max 0 (min 100 y))`, so both stored coordinates always
lie in the interval `[0, 100]`. -/
theorem c8_update_webcam_pos (x y : ℚ) :
    (updateWebcamPos x y).x = max 0 (min 100 x) ∧
    (updateWebcamPos x y).y = max 0 (min 100 y) ∧
    0 ≤ (updateWebcamPos x y).x ∧ (updateWebcamPos x y).x ≤ 100 ∧
    0 ≤ (updateWebcamPos x y).y ∧ (updateWebcamPos x y).y ≤ 100 := by
  refine ⟨rfl, rfl, le_max_left _ _, ?_, le_max_left _ _, ?_⟩ <;>
    exact max_le (by norm_num) (min_le_left _ _)

/-! ### Claim C9 -/

/-- C9: one `renderLoop` tick schedules the next animation frame whether or
not drawing the frame throws — the `requestAnimationFrame` call sits after
the `catch`, so the loop never terminates itself because of a draw failure
(and a failed draw leaves `lastFrameTime` unchanged). -/
theorem c9_render_loop_resilient (st : LoopState) (now : ℚ) (nextId : ℕ) :
    (renderLoop st now true nextId).animationFrameId = some nextId ∧
    (renderLoop st now false nextId).animationFrameId = some nextId ∧
    (renderLoop st now true nextId).lastFrameTime = st.lastFrameTime := by
  refine ⟨rfl, rfl, ?_⟩
  simp only [renderLoop, drawAttempt]
  split_ifs <;> rfl

/-! ### Claim C10 -/

/-- C10: the ffmpeg placeholder performs no transcoding — `convertToMp4` is
the identity on its input blob, and `extractMp3` returns the empty
`audio/mp3` blob regardless of input. -/
theorem c10_ffmpeg_placeholder (b : Blob) :
    convertToMp4 b = b ∧ extractMp3 b = ⟨[], "audio/mp3"⟩ ∧
    (extractMp3 b).data = [] :=
  ⟨rfl, rfl, rfl⟩

